import Mathlib

/-!
# A verified model of the Multi-LLM consensus builder

This file gives a shallow embedding of `llm_consensus.py` and proves the
behavioural properties of its convergence protocol.

The embedding follows the source closely:

* `ModelResponse` is the `TypedDict` of the same name.
* `parse_model_output` is the parsing block shared verbatim by the three
  gateway adapters `_ask_chatgpt` / `_ask_gemini` / `_ask_claude`
  (`content.split('\n', 1)`, first-line comparison with `'true'` after
  `strip().lower()`, remainder stripped).  The guarded block is total on
  strings, so the `except` fallback branch of the adapters is unreachable and
  the parse is modelled as a total function.
* Python dictionaries (`self.models`, `responses`) are modelled as
  insertion-ordered association lists; `dictSet` is `d[k] = v`, which keeps
  the position of an existing key and appends a fresh one.
* `run_agents` is the inner `for model_name, model_func in self.models.items()`
  loop of `get_consensus`; the external oracles are abstracted as the agent
  functions stored in `models`, exactly the role of the bound methods in the
  source.  Besides the state it also records the calls the loop issues, so
  that theorems can speak about the prompts each agent received.
* `consensusLoop` is the `while iteration < self.max_iterations` loop;
  `fallbackAnswer` is `merged_response if merged_response else
  list(responses.values())[0]["response"]`, where Python truthiness makes the
  empty string fall through to the positional lookup, and the `IndexError` of
  the positional lookup on an empty dict is modelled as `none`.
-/

/-- `ModelResponse` from the source: an agreement flag and a response text. -/
structure ModelResponse where
  agrees : Bool
  response : String
deriving DecidableEq

/-- A Python dict mapping agent identifiers to their current responses,
modelled as an insertion-ordered association list. -/
abbrev RoundResponses := List (String × ModelResponse)

/-- The characters removed by Python `str.strip()` (ASCII whitespace). -/
def isPySpace (c : Char) : Bool :=
  c = ' ' || c = '\t' || c = '\n' || c = '\r' || c = '\x0b' || c = '\x0c'

/-- Python `s.strip()`: remove leading and trailing whitespace. -/
def pyStrip (s : String) : String :=
  String.mk (((s.toList.dropWhile isPySpace).reverse.dropWhile isPySpace).reverse)

/-- Python `s.lower()` (the relevant ASCII fragment): lowercase each
character. -/
def pyLower (s : String) : String :=
  String.mk (s.toList.map Char.toLower)

/-- Python `content.split('\n', 1)`: the text before the first line break,
and the remainder when a line break is present. -/
def splitOnceAux : List Char → List Char × Option (List Char)
  | [] => ([], none)
  | c :: cs =>
      if c = '\n' then ([], some cs)
      else
        let r := splitOnceAux cs
        (c :: r.1, r.2)

/-- `split('\n', 1)` on strings. -/
def splitOnce (s : String) : String × Option String :=
  let r := splitOnceAux s.toList
  (String.mk r.1, r.2.map String.mk)

/-- The parsing block shared by the three gateway adapters:
`agrees = parts[0].strip().lower() == 'true'` and
`response_text = parts[1].strip() if len(parts) > 1 else content`. -/
def parse_model_output (content : String) : ModelResponse :=
  let parts := splitOnce content
  let agrees := pyLower (pyStrip parts.1) == "true"
  match parts.2 with
  | some rest => { agrees := agrees, response := pyStrip rest }
  | none => { agrees := agrees, response := content }

/-- The per-agent section of the merge/feedback prompts:
`for model, resp in responses.items(): prompt += f"{model}:\n{resp['response']}\n\n"`. -/
def modelsSection (responses : RoundResponses) : String :=
  responses.foldl (fun acc mr => acc ++ mr.1 ++ ":\n" ++ mr.2.response ++ "\n\n") ""

/-- `LLMConsensus._create_merge_prompt`. -/
def create_merge_prompt (question : String) (responses : RoundResponses) : String :=
  "Original question: " ++ question ++ "\n\n" ++
  "Here are the responses from other AI models:\n\n" ++
  modelsSection responses ++
  "Please merge these responses into a single, comprehensive answer that combines the best aspects of each response. \nYour response should be in the following format:\n\nTrue\n[Merged response that combines the best aspects of all previous responses]\n\nThe first line must be \x27True\x27 to indicate you\x27re providing a merged response."

/-- `LLMConsensus._create_feedback_prompt`. -/
def create_feedback_prompt (question : String) (responses : RoundResponses) : String :=
  "Original question: " ++ question ++ "\n\n" ++
  "Here are the responses from other AI models:\n\n" ++
  modelsSection responses ++
  "Please review these responses and provide your feedback in the following format:\n\nTrue\n[Your merged response that combines the best aspects of all responses]\n\nOR\n\nFalse\n[Your detailed response explaining why you disagree and what should be changed]\n\nThe first line must be exactly \x27True\x27 or \x27False\x27 to indicate whether you agree with the merged approach."

/-- `LLMConsensus._check_consensus`: `all(response["agrees"] for response in responses.values())`. -/
def check_consensus (responses : RoundResponses) : Bool :=
  responses.all (fun mr => mr.2.agrees)

/-- The consensus core: the registered agents (identifier paired with the
gateway capability, in registration order) and the iteration bound. -/
structure LLMConsensus where
  models : List (String × (String → ModelResponse))
  max_iterations : Int

/-- `LLMConsensus.__init__` together with the three gateway adapters: each
adapter sends the prompt to its backing oracle and applies the shared parsing
block to the raw output; `max_iterations` is set to 5. -/
def LLMConsensus.init (askChatgpt askGemini askClaude : String → String) : LLMConsensus :=
  { models := [("ChatGPT", fun p => parse_model_output (askChatgpt p)),
               ("Gemini", fun p => parse_model_output (askGemini p)),
               ("Claude", fun p => parse_model_output (askClaude p))],
    max_iterations := 5 }

/-- Python `responses[model_name] = response` on an insertion-ordered dict:
replace in place when the key exists, append otherwise. -/
def dictSet (d : RoundResponses) (k : String) (v : ModelResponse) : RoundResponses :=
  match d with
  | [] => [(k, v)]
  | kv :: rest => if kv.1 = k then (k, v) :: rest else kv :: dictSet rest k v

/-- The prompt selection of `get_consensus`: the raw question at iteration 0,
the merge prompt at iteration 1, the feedback prompt afterwards, always built
from the `responses` dict as it stands when the agent is asked. -/
def roundPrompt (question : String) (iteration : Nat) (responses : RoundResponses) : String :=
  if iteration = 0 then question
  else if iteration = 1 then create_merge_prompt question responses
  else create_feedback_prompt question responses

/-- The inner loop of `get_consensus` over `self.models.items()`: ask each
agent with the prompt for the current iteration, store the response in the
dict, and capture `merged_response` at iteration 1 for the first registered
agent (`model_name == list(self.models.keys())[0]`).  The returned triple is
(`responses` dict, `merged_response`, issued calls as (agent, prompt) pairs). -/
def run_agents (c : LLMConsensus) (question : String) (iteration : Nat) :
    List (String × (String → ModelResponse)) → RoundResponses → Option String →
    RoundResponses × Option String × List (String × String)
  | [], responses, merged => (responses, merged, [])
  | mf :: rest, responses, merged =>
      let prompt := roundPrompt question iteration responses
      let response := mf.2 prompt
      let responses1 := dictSet responses mf.1 response
      let merged1 :=
        if iteration = 1 ∧ some mf.1 = (c.models.map Prod.fst).head? then
          some response.response
        else merged
      let r := run_agents c question iteration rest responses1 merged1
      (r.1, r.2.1, (mf.1, prompt) :: r.2.2)

/-- `merged_response if merged_response else list(responses.values())[0]["response"]`:
Python truthiness makes `None` and the empty string fall through to the
positional lookup, whose `IndexError` on an empty dict is modelled as `none`. -/
def fallbackAnswer (merged : Option String) (responses : RoundResponses) : Option String :=
  match merged with
  | some s => if s = "" then responses.head?.map (fun mr => mr.2.response) else some s
  | none => responses.head?.map (fun mr => mr.2.response)

/-- The log of one executed round: the (agent, prompt) calls issued, the
`responses` dict at the end of the round, and `merged_response` at the end of
the round. -/
structure RoundLog where
  calls : List (String × String)
  result : RoundResponses
  merged : Option String
deriving DecidableEq

/-- A complete run: the answer of `get_consensus` (`none` when the final
positional lookup raises `IndexError`) and the per-round logs in order. -/
structure RunResult where
  answer : Option String
  rounds : List RoundLog
deriving DecidableEq

/-- The `while iteration < self.max_iterations` loop of `get_consensus`,
with the remaining iteration budget as fuel: run a round, return early when
`_check_consensus` holds, otherwise continue; at exhaustion return the
fallback answer from the final state. -/
def consensusLoop (c : LLMConsensus) (question : String) :
    Nat → Nat → RoundResponses → Option String → RunResult
  | 0, _, responses, merged => { answer := fallbackAnswer merged responses, rounds := [] }
  | fuel + 1, iteration, responses, merged =>
      let r := run_agents c question iteration c.models responses merged
      let entry : RoundLog := { calls := r.2.2, result := r.1, merged := r.2.1 }
      if check_consensus r.1 then
        { answer := fallbackAnswer r.2.1 r.1, rounds := [entry] }
      else
        let rest := consensusLoop c question fuel (iteration + 1) r.1 r.2.1
        { answer := rest.answer, rounds := entry :: rest.rounds }

/-- `LLMConsensus.get_consensus`, instrumented with the per-round logs. -/
def get_consensus_run (c : LLMConsensus) (question : String) : RunResult :=
  consensusLoop c question c.max_iterations.toNat 0 [] none

/-- `LLMConsensus.get_consensus`: the returned answer. -/
def get_consensus (c : LLMConsensus) (question : String) : Option String :=
  (get_consensus_run c question).answer

/-- A `responses` dict is aligned with an agent list when its entries match
the agents positionally: same identifier, and the stored response is the
agent's output on some prompt.  Every dict produced by a full round is
aligned with the registered agents. -/
def Aligned (ms : List (String × (String → ModelResponse))) (d : RoundResponses) : Prop :=
  List.Forall₂ (fun mf p2 => (p2 : String × ModelResponse).1 = mf.1 ∧ ∃ pr, p2.2 = mf.2 pr) ms d

/-! ### Concrete configurations used to exercise the theorems -/

/-- One registered agent that always agrees, answering `zero` to the raw
question and `one` to any other prompt. -/
def cAllAgree : LLMConsensus :=
  { models := [("A", fun p => if p = "Q" then ModelResponse.mk true "zero"
                              else ModelResponse.mk true "one")],
    max_iterations := 5 }

/-- One registered agent that always agrees with the constant text `a`. -/
def cAgreeW : LLMConsensus :=
  { models := [("A", fun _ => ModelResponse.mk true "a")],
    max_iterations := 5 }

/-- Two registered agents that never agree; the first answers `a` to the raw
question and `b` to every later prompt, the second always answers `c`. -/
def cTwoDis : LLMConsensus :=
  { models := [("A", fun p => if p = "Q" then ModelResponse.mk false "a"
                              else ModelResponse.mk false "b"),
               ("B", fun _ => ModelResponse.mk false "c")],
    max_iterations := 5 }

/-- One registered agent that never agrees, with the constant text `x`. -/
def cOneDis : LLMConsensus :=
  { models := [("A", fun _ => ModelResponse.mk false "x")],
    max_iterations := 5 }

/-- The round-0 log of a run of `cOneDis` on `Q`. -/
def rOneDis0 : RoundLog :=
  { calls := [("A", "Q")],
    result := [("A", ModelResponse.mk false "x")],
    merged := none }

/-- The round-1 log of a run of `cOneDis` on `Q`. -/
def rOneDis1 : RoundLog :=
  { calls := [("A", create_merge_prompt "Q" [("A", ModelResponse.mk false "x")])],
    result := [("A", ModelResponse.mk false "x")],
    merged := some "x" }

/-- One never-agreeing agent whose iteration-1 (merge-prompt) response text is
the empty string: `zero` on the raw question, the empty string on the merge
prompt of round 1, `later` on every other prompt. -/
def cEmptyCand : LLMConsensus :=
  { models := [("A", fun p => if p = "Q" then ModelResponse.mk false "zero"
                 else if p = create_merge_prompt "Q" [("A", ModelResponse.mk false "zero")] then
                   ModelResponse.mk false ""
                 else ModelResponse.mk false "later")],
    max_iterations := 5 }

/-- One never-agreeing agent with `max_iterations = 1`. -/
def cMaxOne : LLMConsensus :=
  { models := [("A", fun p => if p = "Q" then ModelResponse.mk false "zero"
                              else ModelResponse.mk false "x")],
    max_iterations := 1 }

/-- A core with no registered agents. -/
def cNoAgents : LLMConsensus :=
  { models := [], max_iterations := 5 }

/-- A core with one agent and a non-positive iteration bound. -/
def cZeroIter : LLMConsensus :=
  { models := [("A", fun _ => ModelResponse.mk true "a")],
    max_iterations := 0 }

/-! ## Basic lemmas about the dict model -/

theorem dictSet_ne_nil (d : RoundResponses) (k : String) (v : ModelResponse) :
    dictSet d k v ≠ [] := by
  cases d with
  | nil => simp [dictSet]
  | cons kv rest =>
      by_cases h : kv.1 = k <;> simp [dictSet, h]

theorem dictSet_of_not_mem {d : RoundResponses} {k : String} (v : ModelResponse)
    (h : k ∉ d.map Prod.fst) : dictSet d k v = d ++ [(k, v)] := by
  induction d with
  | nil => rfl
  | cons kv rest ih =>
      simp only [List.map_cons, List.mem_cons] at h
      push_neg at h
      have hne : ¬ kv.1 = k := fun hh => h.1 hh.symm
      simp [dictSet, hne, ih h.2]

theorem mem_keys_dictSet (d : RoundResponses) (k n : String) (v : ModelResponse) :
    n ∈ (dictSet d k v).map Prod.fst ↔ n ∈ d.map Prod.fst ∨ n = k := by
  induction d with
  | nil => simp [dictSet]
  | cons kv rest ih =>
      by_cases h : kv.1 = k
      · subst h
        simp [dictSet]
        tauto
      · simp [dictSet, h, ih]
        tauto

theorem dictSet_append_left {d₁ : RoundResponses} (d₂ : RoundResponses) {k : String}
    (v : ModelResponse) (h : k ∉ d₁.map Prod.fst) :
    dictSet (d₁ ++ d₂) k v = d₁ ++ dictSet d₂ k v := by
  induction d₁ with
  | nil => rfl
  | cons kv rest ih =>
      simp only [List.map_cons, List.mem_cons] at h
      push_neg at h
      have hne : ¬ kv.1 = k := fun hh => h.1 hh.symm
      simp [dictSet, hne, ih h.2]

/-! ## Basic lemmas about a single round -/

theorem run_agents_nil (c : LLMConsensus) (q : String) (i : Nat)
    (d : RoundResponses) (m : Option String) :
    run_agents c q i [] d m = (d, m, []) := rfl

theorem run_agents_calls_names (c : LLMConsensus) (q : String) (i : Nat) :
    ∀ (ms : List (String × (String → ModelResponse))) (d : RoundResponses) (m : Option String),
      ((run_agents c q i ms d m).2.2).map Prod.fst = ms.map Prod.fst := by
  intro ms
  induction ms with
  | nil => intro d m; rfl
  | cons mf rest ih =>
      intro d m
      simp [run_agents, ih]

theorem run_agents_ne_nil (c : LLMConsensus) (q : String) (i : Nat) :
    ∀ (ms : List (String × (String → ModelResponse))) (d : RoundResponses) (m : Option String),
      d ≠ [] ∨ ms ≠ [] → (run_agents c q i ms d m).1 ≠ [] := by
  intro ms
  induction ms with
  | nil =>
      intro d m h
      rcases h with h | h
      · simpa [run_agents] using h
      · simp at h
  | cons mf rest ih =>
      intro d m _
      simp only [run_agents]
      exact ih _ _ (Or.inl (dictSet_ne_nil _ _ _))

theorem run_agents_keys_mem (c : LLMConsensus) (q : String) (i : Nat) :
    ∀ (ms : List (String × (String → ModelResponse))) (d : RoundResponses) (m : Option String)
      (n : String),
      n ∈ ((run_agents c q i ms d m).1).map Prod.fst ↔
        n ∈ d.map Prod.fst ∨ n ∈ ms.map Prod.fst := by
  intro ms
  induction ms with
  | nil => intro d m n; simp [run_agents]
  | cons mf rest ih =>
      intro d m n
      simp only [run_agents, List.map_cons, List.mem_cons]
      rw [ih]
      rw [mem_keys_dictSet]
      tauto

theorem run_agents_merged_of_ne_one (c : LLMConsensus) (q : String) {i : Nat} (hi : i ≠ 1) :
    ∀ (ms : List (String × (String → ModelResponse))) (d : RoundResponses) (m : Option String),
      (run_agents c q i ms d m).2.1 = m := by
  intro ms
  induction ms with
  | nil => intro d m; rfl
  | cons mf rest ih =>
      intro d m
      simp only [run_agents]
      rw [if_neg (by tauto), ih]

theorem run_agents_merged_of_no_first (c : LLMConsensus) (q : String) (i : Nat) :
    ∀ (ms : List (String × (String → ModelResponse))) (d : RoundResponses) (m : Option String),
      (∀ mf ∈ ms, some mf.1 ≠ (c.models.map Prod.fst).head?) →
      (run_agents c q i ms d m).2.1 = m := by
  intro ms
  induction ms with
  | nil => intro d m _; rfl
  | cons mf rest ih =>
      intro d m h
      simp only [run_agents]
      rw [if_neg, ih]
      · intro mf2 h2
        exact h mf2 (List.mem_cons_of_mem _ h2)
      · intro hc
        exact h mf (List.mem_cons_self _ _) hc.2


theorem roundPrompt_zero (q : String) (d : RoundResponses) : roundPrompt q 0 d = q := by
  simp [roundPrompt]

theorem run_agents_cons (c : LLMConsensus) (q : String) (i : Nat)
    (mf : String × (String → ModelResponse)) (rest : List (String × (String → ModelResponse)))
    (d : RoundResponses) (m : Option String) :
    run_agents c q i (mf :: rest) d m =
      ((run_agents c q i rest (dictSet d mf.1 (mf.2 (roundPrompt q i d)))
          (if i = 1 ∧ some mf.1 = (c.models.map Prod.fst).head? then
            some ((mf.2 (roundPrompt q i d)).response) else m)).1,
       (run_agents c q i rest (dictSet d mf.1 (mf.2 (roundPrompt q i d)))
          (if i = 1 ∧ some mf.1 = (c.models.map Prod.fst).head? then
            some ((mf.2 (roundPrompt q i d)).response) else m)).2.1,
       (mf.1, roundPrompt q i d) ::
       (run_agents c q i rest (dictSet d mf.1 (mf.2 (roundPrompt q i d)))
          (if i = 1 ∧ some mf.1 = (c.models.map Prod.fst).head? then
            some ((mf.2 (roundPrompt q i d)).response) else m)).2.2) := rfl

theorem run_agents_zero (c : LLMConsensus) (q : String) :
    ∀ (ms : List (String × (String → ModelResponse))) (d : RoundResponses) (m : Option String),
      (ms.map Prod.fst).Nodup →
      (∀ n ∈ ms.map Prod.fst, n ∉ d.map Prod.fst) →
      run_agents c q 0 ms d m =
        (d ++ ms.map (fun mf => (mf.1, mf.2 q)), m, ms.map (fun mf => (mf.1, q))) := by
  intro ms
  induction ms with
  | nil => intro d m _ _; simp [run_agents]
  | cons mf rest ih =>
      intro d m hnd hfresh
      have hmf : mf.1 ∉ d.map Prod.fst := hfresh mf.1 (by simp)
      rw [List.map_cons] at hnd
      have hcons := List.nodup_cons.mp hnd
      have hset : dictSet d mf.1 (mf.2 q) = d ++ [(mf.1, mf.2 q)] :=
        dictSet_of_not_mem _ hmf
      have hfresh2 : ∀ n ∈ rest.map Prod.fst, n ∉ (d ++ [(mf.1, mf.2 q)]).map Prod.fst := by
        intro n hn
        simp only [List.map_append, List.mem_append]
        push_neg
        refine ⟨hfresh n (by simp [hn]), ?_⟩
        simp only [List.map_cons, List.map_nil, List.mem_singleton]
        intro he
        exact hcons.1 (he ▸ hn)
      rw [run_agents_cons, roundPrompt_zero, hset, if_neg (by simp),
        ih _ _ hcons.2 hfresh2]
      simp

theorem run_agents_mixed (c : LLMConsensus) (q : String) (i : Nat) :
    ∀ (ms : List (String × (String → ModelResponse))) (done pend : RoundResponses)
      (m : Option String),
      pend.map Prod.fst = ms.map Prod.fst →
      ((done ++ pend).map Prod.fst).Nodup →
      ∃ pend2 : RoundResponses,
        (run_agents c q i ms (done ++ pend) m).1 = done ++ pend2 ∧
        Aligned ms pend2 ∧
        pend2.map Prod.fst = ms.map Prod.fst ∧
        (∀ k : Nat, ((run_agents c q i ms (done ++ pend) m).2.2).get? k =
          (ms.get? k).map
            (fun mf => (mf.1, roundPrompt q i (done ++ (pend2.take k ++ pend.drop k))))) := by
  intro ms
  induction ms with
  | nil =>
      intro done pend m hnames _
      have hpend : pend = [] := by
        cases pend with
        | nil => rfl
        | cons p t => simp at hnames
      subst hpend
      exact ⟨[], by simp [run_agents], List.Forall₂.nil, by simp, by simp [run_agents]⟩
  | cons mf rest ih =>
      intro done pend m hnames hnd
      cases pend with
      | nil => simp at hnames
      | cons p pendT =>
          simp only [List.map_cons, List.cons.injEq] at hnames
          obtain ⟨hname, hnamesT⟩ := hnames
          have hmfdone : mf.1 ∉ done.map Prod.fst := by
            have hdisj := List.disjoint_of_nodup_append (by simpa using hnd)
            intro hc
            exact hdisj hc (by simp [← hname])
          have hset : dictSet (done ++ p :: pendT) mf.1
                (mf.2 (roundPrompt q i (done ++ p :: pendT))) =
              (done ++ [(mf.1, mf.2 (roundPrompt q i (done ++ p :: pendT)))]) ++ pendT := by
            rw [dictSet_append_left _ _ hmfdone]
            simp [dictSet, hname]
          have hnd2 : (((done ++ [(mf.1, mf.2 (roundPrompt q i (done ++ p :: pendT)))]) ++
              pendT).map Prod.fst).Nodup := by
            have heq : ((done ++ [(mf.1, mf.2 (roundPrompt q i (done ++ p :: pendT)))]) ++
                pendT).map Prod.fst = (done ++ p :: pendT).map Prod.fst := by
              simp [hname]
            rw [heq]; exact hnd
          obtain ⟨pend2', h1, h2, h3, h4⟩ :=
            ih (done ++ [(mf.1, mf.2 (roundPrompt q i (done ++ p :: pendT)))]) pendT
              (if i = 1 ∧ some mf.1 = (c.models.map Prod.fst).head? then
                some ((mf.2 (roundPrompt q i (done ++ p :: pendT))).response) else m)
              hnamesT hnd2
          refine ⟨(mf.1, mf.2 (roundPrompt q i (done ++ p :: pendT))) :: pend2', ?_, ?_, ?_, ?_⟩
          · rw [run_agents_cons, hset, h1]
            simp
          · exact List.Forall₂.cons ⟨rfl, ⟨roundPrompt q i (done ++ p :: pendT), rfl⟩⟩ h2
          · simp [h3]
          · intro k
            cases k with
            | zero =>
                rw [run_agents_cons, hset]
                simp
            | succ k =>
                rw [run_agents_cons, hset]
                simp only [List.get?_cons_succ]
                rw [h4 k]
                cases hr : rest.get? k with
                | none => simp
                | some mf2 => simp [List.append_assoc]

theorem aligned_map_q (ms : List (String × (String → ModelResponse))) (q : String) :
    Aligned ms (ms.map (fun mf => (mf.1, mf.2 q))) := by
  induction ms with
  | nil => exact List.Forall₂.nil
  | cons mf rest ih => exact List.Forall₂.cons ⟨rfl, ⟨q, rfl⟩⟩ ih

theorem check_consensus_eq_false_of_disagree {ms : List (String × (String → ModelResponse))}
    {d : RoundResponses} (hal : Aligned ms d) {mf : String × (String → ModelResponse)}
    (hmem : mf ∈ ms) (hdis : ∀ p, (mf.2 p).agrees = false) :
    check_consensus d = false := by
  rcases List.mem_iff_get.mp hmem with ⟨idx, hidx⟩
  have hlen := List.Forall₂.length_eq hal
  have hidx2 : idx.1 < d.length := by omega
  have hrel := (List.forall₂_iff_get.mp hal).2 idx.1 idx.2 hidx2
  obtain ⟨-, pr, hpr⟩ := hrel
  have hmem2 : d.get ⟨idx.1, hidx2⟩ ∈ d := List.get_mem _ _ _
  rw [check_consensus, Bool.eq_false_iff]
  intro hall
  rw [List.all_eq_true] at hall
  have htrue := hall _ hmem2
  rw [hpr] at htrue
  rw [hidx] at htrue
  rw [hdis pr] at htrue
  exact Bool.false_ne_true htrue

theorem run_agents_head_frozen (c : LLMConsensus) (q : String) (i : Nat) :
    ∀ (ms : List (String × (String → ModelResponse))) (e : String × ModelResponse)
      (d0 : RoundResponses) (m : Option String),
      (∀ mf ∈ ms, (mf : String × (String → ModelResponse)).1 ≠ e.1) →
      ∃ dT2, (run_agents c q i ms (e :: d0) m).1 = e :: dT2 := by
  intro ms
  induction ms with
  | nil => intro e d0 m _; exact ⟨d0, rfl⟩
  | cons mf rest ih =>
      intro e d0 m h
      rw [run_agents_cons]
      have he : ¬ e.1 = mf.1 := fun hh => h mf (List.mem_cons_self _ _) hh.symm
      have hstep : dictSet (e :: d0) mf.1 (mf.2 (roundPrompt q i (e :: d0))) =
          e :: dictSet d0 mf.1 (mf.2 (roundPrompt q i (e :: d0))) := by
        simp [dictSet, he]
      rw [hstep]
      exact ih e _ _ (fun mf2 h2 => h mf2 (List.mem_cons_of_mem _ h2))

theorem run_agents_one_merged (c : LLMConsensus) (q : String) (d : RoundResponses)
    (m : Option String) (hne : c.models ≠ [])
    (hnames : d.map Prod.fst = c.models.map Prod.fst)
    (hnd : (c.models.map Prod.fst).Nodup) :
    ∃ e dT, (run_agents c q 1 c.models d m).1 = e :: dT ∧
      (run_agents c q 1 c.models d m).2.1 = some e.2.response := by
  obtain ⟨mf, rest, hm⟩ := List.exists_cons_of_ne_nil hne
  obtain ⟨p, dT0, hd⟩ : ∃ p dT0, d = p :: dT0 := by
    cases d with
    | nil => rw [hm] at hnames; simp at hnames
    | cons p dT0 => exact ⟨p, dT0, rfl⟩
  have hp1 : p.1 = mf.1 := by
    rw [hm, hd] at hnames
    simp only [List.map_cons, List.cons.injEq] at hnames
    exact hnames.1
  have hnotin : mf.1 ∉ rest.map Prod.fst := by
    rw [hm, List.map_cons] at hnd
    exact (List.nodup_cons.mp hnd).1
  have hcond : (1 = 1 ∧ some mf.1 = (c.models.map Prod.fst).head?) := by
    refine ⟨rfl, ?_⟩
    rw [hm]
    simp
  have hstep : dictSet d mf.1 (mf.2 (roundPrompt q 1 d)) =
      (mf.1, mf.2 (roundPrompt q 1 d)) :: dT0 := by
    rw [hd]
    simp [dictSet, hp1]
  have hfrozen : ∀ mf2 ∈ rest, (mf2 : String × (String → ModelResponse)).1 ≠
      ((mf.1, mf.2 (roundPrompt q 1 d)) : String × ModelResponse).1 := by
    intro mf2 h2 hc
    exact hnotin (hc ▸ List.mem_map_of_mem Prod.fst h2)
  have hnofirst : ∀ mf2 ∈ rest, some (mf2 : String × (String → ModelResponse)).1 ≠
      (c.models.map Prod.fst).head? := by
    intro mf2 h2 hc
    rw [hm, List.map_cons, List.head?_cons] at hc
    have : mf2.1 = mf.1 := by injection hc
    exact hnotin (this ▸ List.mem_map_of_mem Prod.fst h2)
  have hmain : run_agents c q 1 c.models d m =
      ((run_agents c q 1 rest ((mf.1, mf.2 (roundPrompt q 1 d)) :: dT0)
          (some ((mf.2 (roundPrompt q 1 d)).response))).1,
       (run_agents c q 1 rest ((mf.1, mf.2 (roundPrompt q 1 d)) :: dT0)
          (some ((mf.2 (roundPrompt q 1 d)).response))).2.1,
       (mf.1, roundPrompt q 1 d) ::
       (run_agents c q 1 rest ((mf.1, mf.2 (roundPrompt q 1 d)) :: dT0)
          (some ((mf.2 (roundPrompt q 1 d)).response))).2.2) := by
    conv_lhs => rw [hm, run_agents_cons]
    rw [if_pos hcond, hstep]
  obtain ⟨dT2, hdT2⟩ :=
    run_agents_head_frozen c q 1 rest (mf.1, mf.2 (roundPrompt q 1 d)) dT0
      (some ((mf.2 (roundPrompt q 1 d)).response)) hfrozen
  have hmerged :=
    run_agents_merged_of_no_first c q 1 rest ((mf.1, mf.2 (roundPrompt q 1 d)) :: dT0)
      (some ((mf.2 (roundPrompt q 1 d)).response)) hnofirst
  exact ⟨(mf.1, mf.2 (roundPrompt q 1 d)), dT2,
    by rw [hmain]; exact hdT2, by rw [hmain]; exact hmerged⟩

/-! ## Lemmas about the convergence loop -/

theorem consensusLoop_succ (c : LLMConsensus) (q : String) (fuel i : Nat)
    (d : RoundResponses) (m : Option String) :
    consensusLoop c q (fuel + 1) i d m =
      (if check_consensus (run_agents c q i c.models d m).1 then
        { answer := fallbackAnswer (run_agents c q i c.models d m).2.1
            (run_agents c q i c.models d m).1,
          rounds := [⟨(run_agents c q i c.models d m).2.2, (run_agents c q i c.models d m).1,
            (run_agents c q i c.models d m).2.1⟩] }
      else
        { answer := (consensusLoop c q fuel (i + 1) (run_agents c q i c.models d m).1
            (run_agents c q i c.models d m).2.1).answer,
          rounds := ⟨(run_agents c q i c.models d m).2.2, (run_agents c q i c.models d m).1,
            (run_agents c q i c.models d m).2.1⟩ ::
            (consensusLoop c q fuel (i + 1) (run_agents c q i c.models d m).1
              (run_agents c q i c.models d m).2.1).rounds }) := rfl

theorem consensusLoop_head (c : LLMConsensus) (q : String) (fuel i : Nat)
    (d : RoundResponses) (m : Option String) :
    (consensusLoop c q (fuel + 1) i d m).rounds.get? 0 =
      some ⟨(run_agents c q i c.models d m).2.2, (run_agents c q i c.models d m).1,
        (run_agents c q i c.models d m).2.1⟩ := by
  rw [consensusLoop_succ]
  by_cases h : check_consensus (run_agents c q i c.models d m).1 <;> simp [h]

theorem consensusLoop_rounds_ne_nil (c : LLMConsensus) (q : String) (fuel i : Nat)
    (d : RoundResponses) (m : Option String) :
    (consensusLoop c q (fuel + 1) i d m).rounds ≠ [] := by
  intro hnil
  have := consensusLoop_head c q fuel i d m
  rw [hnil] at this
  simp at this

theorem consensusLoop_chain (c : LLMConsensus) (q : String) :
    ∀ (fuel i : Nat) (d : RoundResponses) (m : Option String) (j : Nat) (rp rc : RoundLog),
      (consensusLoop c q fuel i d m).rounds.get? j = some rp →
      (consensusLoop c q fuel i d m).rounds.get? (j + 1) = some rc →
      run_agents c q (i + j + 1) c.models rp.result rp.merged =
        (rc.result, rc.merged, rc.calls) := by
  intro fuel
  induction fuel with
  | zero =>
      intro i d m j rp rc hp _
      simp [consensusLoop] at hp
  | succ fuel ih =>
      intro i d m j rp rc hp hc
      rw [consensusLoop_succ] at hp hc
      by_cases h : check_consensus (run_agents c q i c.models d m).1
      · rw [if_pos h] at hc
        simp at hc
      · rw [if_neg h] at hp hc
        cases j with
        | zero =>
            simp only [List.get?_cons_zero, Option.some.injEq] at hp
            simp only [List.get?_cons_succ] at hc
            cases fuel with
            | zero => simp [consensusLoop] at hc
            | succ f2 =>
                rw [consensusLoop_head] at hc
                have hc2 := Option.some.inj hc
                subst hp
                subst hc2
                rfl
        | succ j =>
            simp only [List.get?_cons_succ] at hp hc
            have harith : i + (j + 1) + 1 = (i + 1) + j + 1 := by omega
            rw [harith]
            exact ih (i + 1) _ _ j rp rc hp hc

theorem consensusLoop_answer_of_last (c : LLMConsensus) (q : String) :
    ∀ (fuel i : Nat) (d : RoundResponses) (m : Option String) (j : Nat) (r : RoundLog),
      (consensusLoop c q fuel i d m).rounds.length = j + 1 →
      (consensusLoop c q fuel i d m).rounds.get? j = some r →
      (consensusLoop c q fuel i d m).answer = fallbackAnswer r.merged r.result := by
  intro fuel
  induction fuel with
  | zero =>
      intro i d m j r hlen _
      simp [consensusLoop] at hlen
  | succ fuel ih =>
      intro i d m j r hlen hget
      rw [consensusLoop_succ] at hlen hget ⊢
      by_cases h : check_consensus (run_agents c q i c.models d m).1
      · rw [if_pos h] at hlen hget ⊢
        have hj : j = 0 := by simpa using hlen
        subst hj
        simp only [List.get?_cons_zero, Option.some.injEq] at hget
        subst hget
        rfl
      · rw [if_neg h] at hlen hget ⊢
        cases fuel with
        | zero =>
            have hj : j = 0 := by
              simp [consensusLoop] at hlen
              omega
            subst hj
            simp only [List.get?_cons_zero, Option.some.injEq] at hget
            subst hget
            rfl
        | succ f2 =>
            have hne := consensusLoop_rounds_ne_nil c q f2 (i + 1)
              (run_agents c q i c.models d m).1 (run_agents c q i c.models d m).2.1
            cases j with
            | zero =>
                simp only [List.length_cons, Nat.add_right_cancel_iff] at hlen
                exact absurd (List.length_eq_zero.mp hlen) hne
            | succ j =>
                simp only [List.length_cons, Nat.add_right_cancel_iff] at hlen
                simp only [List.get?_cons_succ] at hget
                exact ih (i + 1) _ _ j r hlen hget

theorem run_agents_start_aligned (c : LLMConsensus) (q : String) (i : Nat)
    (d : RoundResponses) (m : Option String) (hnd : (c.models.map Prod.fst).Nodup)
    (hstart : d.map Prod.fst = c.models.map Prod.fst ∨ (i = 0 ∧ d = [])) :
    (run_agents c q i c.models d m).1.map Prod.fst = c.models.map Prod.fst ∧
      Aligned c.models (run_agents c q i c.models d m).1 := by
  rcases hstart with hnames | ⟨hi, hd⟩
  · obtain ⟨pend2, h1, h2, h3, _⟩ :=
      run_agents_mixed c q i c.models [] d m hnames
        (by rw [List.nil_append, hnames]; exact hnd)
    simp only [List.nil_append] at h1
    rw [h1]
    exact ⟨h3, h2⟩
  · subst hi
    subst hd
    rw [run_agents_zero c q c.models [] m hnd (by simp)]
    constructor
    · simp
    · simpa using aligned_map_q c.models q

theorem consensusLoop_entries_keys (c : LLMConsensus) (q : String) :
    ∀ (fuel i : Nat) (d : RoundResponses) (m : Option String),
      (∀ n ∈ d.map Prod.fst, n ∈ c.models.map Prod.fst) →
      ∀ r ∈ (consensusLoop c q fuel i d m).rounds,
        r.calls.map Prod.fst = c.models.map Prod.fst ∧
        (∀ n, n ∈ r.result.map Prod.fst ↔ n ∈ c.models.map Prod.fst) := by
  intro fuel
  induction fuel with
  | zero =>
      intro i d m _ r hr
      simp [consensusLoop] at hr
  | succ fuel ih =>
      intro i d m hsub r hr
      have hentry : ((run_agents c q i c.models d m).2.2).map Prod.fst =
          c.models.map Prod.fst := run_agents_calls_names c q i c.models d m
      have hkeys : ∀ n, n ∈ ((run_agents c q i c.models d m).1).map Prod.fst ↔
          n ∈ c.models.map Prod.fst := by
        intro n
        rw [run_agents_keys_mem]
        constructor
        · rintro (hn | hn)
          · exact hsub n hn
          · exact hn
        · exact Or.inr
      rw [consensusLoop_succ] at hr
      by_cases h : check_consensus (run_agents c q i c.models d m).1
      · rw [if_pos h] at hr
        simp only [List.mem_singleton] at hr
        subst hr
        exact ⟨hentry, hkeys⟩
      · rw [if_neg h] at hr
        rcases List.mem_cons.mp hr with hr | hr
        · subst hr
          exact ⟨hentry, hkeys⟩
        · exact ih (i + 1) _ _ (fun n hn => (hkeys n).mp hn) r hr

theorem consensusLoop_entries_names (c : LLMConsensus) (q : String) :
    ∀ (fuel i : Nat) (d : RoundResponses) (m : Option String),
      (c.models.map Prod.fst).Nodup →
      (d.map Prod.fst = c.models.map Prod.fst ∨ (i = 0 ∧ d = [])) →
      ∀ r ∈ (consensusLoop c q fuel i d m).rounds,
        r.result.map Prod.fst = c.models.map Prod.fst ∧ Aligned c.models r.result := by
  intro fuel
  induction fuel with
  | zero =>
      intro i d m _ _ r hr
      simp [consensusLoop] at hr
  | succ fuel ih =>
      intro i d m hnd hstart r hr
      obtain ⟨hnames, hal⟩ := run_agents_start_aligned c q i d m hnd hstart
      rw [consensusLoop_succ] at hr
      by_cases h : check_consensus (run_agents c q i c.models d m).1
      · rw [if_pos h] at hr
        simp only [List.mem_singleton] at hr
        subst hr
        exact ⟨hnames, hal⟩
      · rw [if_neg h] at hr
        rcases List.mem_cons.mp hr with hr | hr
        · subst hr
          exact ⟨hnames, hal⟩
        · exact ih (i + 1) _ _ hnd (Or.inl hnames) r hr

theorem consensusLoop_merged_const (c : LLMConsensus) (q : String) :
    ∀ (fuel i : Nat) (d : RoundResponses) (m : Option String),
      2 ≤ i →
      ∀ r ∈ (consensusLoop c q fuel i d m).rounds, r.merged = m := by
  intro fuel
  induction fuel with
  | zero =>
      intro i d m _ r hr
      simp [consensusLoop] at hr
  | succ fuel ih =>
      intro i d m hi r hr
      have hm : (run_agents c q i c.models d m).2.1 = m :=
        run_agents_merged_of_ne_one c q (by omega) c.models d m
      rw [consensusLoop_succ] at hr
      by_cases h : check_consensus (run_agents c q i c.models d m).1
      · rw [if_pos h] at hr
        simp only [List.mem_singleton] at hr
        subst hr
        exact hm
      · rw [if_neg h] at hr
        rcases List.mem_cons.mp hr with hr | hr
        · subst hr
          exact hm
        · rw [← hm]
          exact ih (i + 1) _ _ (by omega) r hr

theorem consensusLoop_len_disagree (c : LLMConsensus) (q : String)
    {mf : String × (String → ModelResponse)} (hmem : mf ∈ c.models)
    (hdis : ∀ p, (mf.2 p).agrees = false) :
    ∀ (fuel i : Nat) (d : RoundResponses) (m : Option String),
      (c.models.map Prod.fst).Nodup →
      (d.map Prod.fst = c.models.map Prod.fst ∨ (i = 0 ∧ d = [])) →
      (consensusLoop c q fuel i d m).rounds.length = fuel := by
  intro fuel
  induction fuel with
  | zero =>
      intro i d m _ _
      simp [consensusLoop]
  | succ fuel ih =>
      intro i d m hnd hstart
      obtain ⟨hnames, hal⟩ := run_agents_start_aligned c q i d m hnd hstart
      have hfalse : check_consensus (run_agents c q i c.models d m).1 = false :=
        check_consensus_eq_false_of_disagree hal hmem hdis
      rw [consensusLoop_succ, if_neg (by simp [hfalse])]
      simp only [List.length_cons]
      rw [ih (i + 1) _ _ hnd (Or.inl hnames)]

theorem fallbackAnswer_isSome (m : Option String) (d : RoundResponses) (hd : d ≠ []) :
    (fallbackAnswer m d).isSome = true := by
  obtain ⟨e, dT, rfl⟩ := List.exists_cons_of_ne_nil hd
  cases m with
  | none => simp [fallbackAnswer]
  | some s =>
      by_cases hs : s = "" <;> simp [fallbackAnswer, hs]

theorem consensusLoop_isSome (c : LLMConsensus) (q : String) :
    ∀ (fuel i : Nat) (d : RoundResponses) (m : Option String),
      d ≠ [] → ((consensusLoop c q fuel i d m).answer).isSome = true := by
  intro fuel
  induction fuel with
  | zero =>
      intro i d m hd
      exact fallbackAnswer_isSome m d hd
  | succ fuel ih =>
      intro i d m hd
      have hne : (run_agents c q i c.models d m).1 ≠ [] :=
        run_agents_ne_nil c q i c.models d m (Or.inl hd)
      rw [consensusLoop_succ]
      by_cases h : check_consensus (run_agents c q i c.models d m).1
      · rw [if_pos h]
        exact fallbackAnswer_isSome _ _ hne
      · rw [if_neg h]
        exact ih (i + 1) _ _ hne

/-! ## The claims -/

/-- Claim C6: `_check_consensus` returns true if and only if every agent's
`agrees` flag in the given round result is true; on an empty round result
(zero registered agents) it trivially returns true. -/
theorem check_consensus_spec (rs : RoundResponses) :
    (check_consensus rs = true ↔ ∀ mr ∈ rs, (mr : String × ModelResponse).2.agrees = true) ∧
    check_consensus ([] : RoundResponses) = true := by
  constructor
  · rw [check_consensus, List.all_eq_true]
  · rfl

/-- Witness for C6 at a concrete one-agent round result. -/
theorem check_consensus_spec_witness :
    (check_consensus [("A", ModelResponse.mk true "a")] = true ↔
      ∀ mr ∈ [("A", ModelResponse.mk true "a")],
        (mr : String × ModelResponse).2.agrees = true) ∧
    check_consensus ([] : RoundResponses) = true :=
  check_consensus_spec [("A", ModelResponse.mk true "a")]

theorem splitOnceAux_eq (cs : List Char) :
    splitOnceAux cs = (cs.takeWhile (fun ch => ch != '\n'),
      if '\n' ∈ cs then some ((cs.dropWhile (fun ch => ch != '\n')).tail) else none) := by
  induction cs with
  | nil => simp [splitOnceAux]
  | cons ch cs ih =>
      by_cases h : ch = '\n'
      · subst h
        simp [splitOnceAux]
      · have hb : (ch != '\n') = true := by simpa using h
        have hmem : ('\n' ∈ ch :: cs) ↔ ('\n' ∈ cs) := by
          constructor
          · intro hx
            rcases List.mem_cons.mp hx with hx | hx
            · exact absurd hx.symm h
            · exact hx
          · exact List.mem_cons_of_mem _
        rw [splitOnceAux, if_neg h, ih]
        rw [List.takeWhile_cons, List.dropWhile_cons, hb]
        simp only [if_true, hmem]

/-- Counterexample to claim C4 as stated: the adapters strip the remainder
after the first line break (`parts[1].strip()`), so for the raw output
`"True\n foo "` the parsed text is `"foo"`, not the untouched remainder
`" foo "` that the claim predicts. -/
theorem parse_model_output_cex :
    parse_model_output "True\n foo " = ModelResponse.mk true "foo" ∧
    ModelResponse.mk true "foo" ≠ ModelResponse.mk true " foo " := by
  constructor
  · decide
  · decide

/-- Claim C4 (amended): for every raw oracle output, `agrees` is true exactly
when the text before the first line break, trimmed and lowercased, equals
`true`; the parsed text is the remainder after the first line break *trimmed
of surrounding whitespace* when a line break is present, and the entire raw
output otherwise; in particular the three examples of the claim hold.  (The
parse is total on strings, so the adapters' exception fallback is
unreachable.) -/
theorem parse_model_output_amended (s : String) :
    (parse_model_output s).agrees =
      (pyLower (pyStrip (String.mk (s.toList.takeWhile (fun ch => ch != '\n')))) == "true") ∧
    (parse_model_output s).response =
      (if '\n' ∈ s.toList then
        pyStrip (String.mk ((s.toList.dropWhile (fun ch => ch != '\n')).tail))
      else s) ∧
    parse_model_output "True\nfoo bar" = ModelResponse.mk true "foo bar" ∧
    parse_model_output "garbage with no match" =
      ModelResponse.mk false "garbage with no match" ∧
    (parse_model_output " TRUE \nX").agrees = true := by
  have hsplit : splitOnce s =
      (String.mk (s.toList.takeWhile (fun ch => ch != '\n')),
       if '\n' ∈ s.toList then
         some (String.mk ((s.toList.dropWhile (fun ch => ch != '\n')).tail))
       else none) := by
    simp only [splitOnce, splitOnceAux_eq]
    by_cases hmem : '\n' ∈ s.toList
    · simp [hmem]
    · simp [hmem]
  refine ⟨?_, ?_, by decide, by decide, by decide⟩
  · simp only [parse_model_output, hsplit]
    by_cases hmem : '\n' ∈ s.toList
    · rw [if_pos hmem]
    · rw [if_neg hmem]
  · simp only [parse_model_output, hsplit]
    by_cases hmem : '\n' ∈ s.toList
    · rw [if_pos hmem, if_pos hmem]
    · rw [if_neg hmem, if_neg hmem]

/-- Counterexample to claim C9 as stated: nothing rejects a bad configuration
at construction time.  A core with no registered agents, and a core with a
non-positive iteration bound, are both accepted silently, and the failure
surfaces only when `get_consensus` runs: neither run produces a string (the
final positional lookup is on an empty dict).  With no agents the single
executed round trivially passes the consensus check before the lookup fails. -/
theorem config_failure_cex :
    get_consensus cNoAgents "Q" = none ∧
    (get_consensus_run cNoAgents "Q").rounds.length = 1 ∧
    get_consensus cZeroIter "Q" = none := by
  refine ⟨rfl, rfl, rfl⟩

/-- Claim C9 (amended): the constructor performs no validation and cannot
fail; instead it unconditionally produces a valid configuration — exactly the
three agents `ChatGPT`, `Gemini`, `Claude` and `max_iterations = 5 > 0` — so
the configuration-failure condition (no agents, or a non-positive bound)
never holds for a constructed core.  Cores in a bad configuration are not
rejected anywhere; their failure is discovered only mid-run. -/
theorem init_valid_config (f g h : String → String) :
    (LLMConsensus.init f g h).models.map Prod.fst = ["ChatGPT", "Gemini", "Claude"] ∧
    (LLMConsensus.init f g h).models ≠ [] ∧
    (LLMConsensus.init f g h).max_iterations = 5 ∧
    0 < (LLMConsensus.init f g h).max_iterations := by
  refine ⟨rfl, ?_, rfl, ?_⟩
  · simp [LLMConsensus.init]
  · rw [show (LLMConsensus.init f g h).max_iterations = 5 from rfl]
    decide

/-- Claim C10: with at least one registered agent (and a positive iteration
bound, as configured) `get_consensus` always produces a string — the
position-0 fallback lookup is in bounds on every exit path; with zero
registered agents the empty round result trivially passes the consensus check
at iteration 0 (a single executed round) and the lookup is reached on an
empty dict, so no string is produced. -/
theorem fallback_lookup_safety (c : LLMConsensus) (q : String)
    (hpos : 0 < c.max_iterations) :
    (c.models = [] → get_consensus c q = none ∧ (get_consensus_run c q).rounds.length = 1) ∧
    (c.models ≠ [] → (get_consensus c q).isSome = true) := by
  obtain ⟨k, hk⟩ : ∃ k, c.max_iterations.toNat = k + 1 := by
    refine ⟨c.max_iterations.toNat - 1, ?_⟩
    omega
  constructor
  · intro hm
    rw [get_consensus, get_consensus_run, hk, consensusLoop_succ, hm]
    constructor
    · rfl
    · rfl
  · intro hm
    have hne : (run_agents c q 0 c.models [] none).1 ≠ [] :=
      run_agents_ne_nil c q 0 c.models [] none (Or.inr hm)
    rw [get_consensus, get_consensus_run, hk, consensusLoop_succ]
    by_cases h : check_consensus (run_agents c q 0 c.models [] none).1
    · rw [if_pos h]
      exact fallbackAnswer_isSome _ _ hne
    · rw [if_neg h]
      exact consensusLoop_isSome c q k 1 _ _ hne

/-- Witness for C10 at a concrete one-agent core. -/
theorem fallback_lookup_safety_witness :
    (cAgreeW.models = [] → get_consensus cAgreeW "Q" = none ∧
      (get_consensus_run cAgreeW "Q").rounds.length = 1) ∧
    (cAgreeW.models ≠ [] → (get_consensus cAgreeW "Q").isSome = true) :=
  fallback_lookup_safety cAgreeW "Q" (by decide)

/-- Claim C8: with `max_iterations = 1` and no consensus in round 0,
`get_consensus` executes exactly one round, every prompt issued in the run is
the raw question (the merge-prompt branch is never reached), and the returned
answer is the first-registered agent's iteration-0 response text, the
candidate answer never having been set. -/
theorem max_one_iteration (c : LLMConsensus) (q : String)
    (hne : c.models ≠ []) (hnd : (c.models.map Prod.fst).Nodup)
    (hmax : c.max_iterations = 1)
    (hdis : ∃ mf ∈ c.models, ((mf.2 : String → ModelResponse) q).agrees = false) :
    (get_consensus_run c q).rounds.length = 1 ∧
    get_consensus c q = c.models.head?.map (fun mf => (mf.2 q).response) ∧
    (∀ r ∈ (get_consensus_run c q).rounds, ∀ call ∈ r.calls,
      (call : String × String).2 = q) := by
  have htn : c.max_iterations.toNat = 1 := by rw [hmax]; rfl
  have hzero := run_agents_zero c q c.models [] none hnd (by simp)
  have hfalse : check_consensus (run_agents c q 0 c.models [] none).1 = false := by
    rw [hzero]
    obtain ⟨mf, hmem, hfq⟩ := hdis
    rw [check_consensus, Bool.eq_false_iff]
    intro hall
    rw [List.all_eq_true] at hall
    have hmm : ((mf.1, mf.2 q) : String × ModelResponse) ∈
        ([] : RoundResponses) ++ c.models.map (fun mf => (mf.1, mf.2 q)) := by
      rw [List.nil_append]
      exact List.mem_map_of_mem _ hmem
    have h2 := hall _ hmm
    rw [hfq] at h2
    exact Bool.false_ne_true h2
  have hR : get_consensus_run c q =
      ⟨fallbackAnswer none (([] : RoundResponses) ++
          c.models.map (fun mf => (mf.1, mf.2 q))),
       [⟨c.models.map (fun mf => (mf.1, q)),
         ([] : RoundResponses) ++ c.models.map (fun mf => (mf.1, mf.2 q)), none⟩]⟩ := by
    rw [get_consensus_run, htn, consensusLoop_succ, if_neg (by rw [hfalse]; simp), hzero]
    rfl
  obtain ⟨mf0, rest, hm⟩ := List.exists_cons_of_ne_nil hne
  refine ⟨?_, ?_, ?_⟩
  · rw [hR]
    rfl
  · rw [get_consensus, hR, hm]
    rfl
  · intro r hr call hcall
    rw [hR] at hr
    rcases List.mem_singleton.mp hr with rfl
    rcases List.mem_map.mp hcall with ⟨mf2, -, rfl⟩
    rfl

/-- Witness for C8: a single never-agreeing agent with `max_iterations = 1`. -/
theorem max_one_iteration_witness :
    (get_consensus_run cMaxOne "Q").rounds.length = 1 ∧
    get_consensus cMaxOne "Q" = cMaxOne.models.head?.map (fun mf => (mf.2 "Q").response) ∧
    (∀ r ∈ (get_consensus_run cMaxOne "Q").rounds, ∀ call ∈ r.calls,
      (call : String × String).2 = "Q") :=
  max_one_iteration cMaxOne "Q" (by simp [cMaxOne]) (by decide) (by decide)
    ⟨("A", fun p => if p = "Q" then ModelResponse.mk false "zero"
        else ModelResponse.mk false "x"),
     List.mem_singleton.mpr rfl, by simp⟩

/-- Counterexample to claim C1 as stated: with one registered agent that
always agrees (answering `zero` to the raw question and `one` to any other
prompt, in particular to the iteration-1 merge prompt), `get_consensus`
returns after the very first round — the loop short-circuits at iteration 0 —
with the iteration-0 text `zero`, not the iteration-1 text `one` the claim
predicts. -/
theorem all_agree_round0_cex :
    (get_consensus_run cAllAgree "Q").rounds.length = 1 ∧
    get_consensus cAllAgree "Q" = some "zero" ∧
    cAllAgree.models.head?.map
      (fun mf => (mf.2 (create_merge_prompt "Q"
        [("A", ModelResponse.mk true "zero")])).response) = some "one" ∧
    some "zero" ≠ some "one" := by
  refine ⟨rfl, rfl, by decide, by decide⟩

/-- Claim C1 (amended): for every question and every non-empty registered
agent set (with a positive iteration bound) in which every agent always
returns `agrees = true`, `get_consensus` terminates at iteration 0 after a
single round — consensus is checked every round, including round 0 — and
returns the first-registered agent's iteration-0 response text (its response
to the raw question). -/
theorem all_agree_round0 (c : LLMConsensus) (q : String)
    (hne : c.models ≠ []) (hnd : (c.models.map Prod.fst).Nodup)
    (hpos : 0 < c.max_iterations)
    (hagree : ∀ mf ∈ c.models, ∀ p, ((mf.2 : String → ModelResponse) p).agrees = true) :
    (get_consensus_run c q).rounds.length = 1 ∧
    get_consensus c q = c.models.head?.map (fun mf => (mf.2 q).response) := by
  obtain ⟨k, hk⟩ : ∃ k, c.max_iterations.toNat = k + 1 := by
    refine ⟨c.max_iterations.toNat - 1, ?_⟩
    omega
  have hzero := run_agents_zero c q c.models [] none hnd (by simp)
  have htrue : check_consensus (run_agents c q 0 c.models [] none).1 = true := by
    rw [hzero, check_consensus, List.all_eq_true]
    intro x hx
    rw [List.nil_append] at hx
    rcases List.mem_map.mp hx with ⟨mf, hmem, rfl⟩
    exact hagree mf hmem q
  have hR : get_consensus_run c q =
      ⟨fallbackAnswer none (([] : RoundResponses) ++
          c.models.map (fun mf => (mf.1, mf.2 q))),
       [⟨c.models.map (fun mf => (mf.1, q)),
         ([] : RoundResponses) ++ c.models.map (fun mf => (mf.1, mf.2 q)), none⟩]⟩ := by
    rw [get_consensus_run, hk, consensusLoop_succ, if_pos htrue, hzero]
  obtain ⟨mf0, rest, hm⟩ := List.exists_cons_of_ne_nil hne
  constructor
  · rw [hR]
    rfl
  · rw [get_consensus, hR, hm]
    rfl

/-- Witness for C1 (amended): one constantly agreeing agent. -/
theorem all_agree_round0_witness :
    (get_consensus_run cAgreeW "Q").rounds.length = 1 ∧
    get_consensus cAgreeW "Q" = cAgreeW.models.head?.map (fun mf => (mf.2 "Q").response) :=
  all_agree_round0 cAgreeW "Q" (by simp [cAgreeW]) (by decide) (by decide)
    (by
      intro mf hmf p
      simp only [cAgreeW, List.mem_singleton] at hmf
      subst hmf
      rfl)

/-- Claim C7: in every round of every run, the round executor queries every
registered agent exactly once in registration order — the (agent, prompt)
calls of the round list exactly the registered identifiers in order — and
the round result's agent-key set equals the registered-agent set, whatever
the individual agents return. -/
theorem round_executor_covers (c : LLMConsensus) (q : String) (r : RoundLog)
    (hr : r ∈ (get_consensus_run c q).rounds) :
    r.calls.map Prod.fst = c.models.map Prod.fst ∧
    (∀ n, n ∈ r.result.map Prod.fst ↔ n ∈ c.models.map Prod.fst) :=
  consensusLoop_entries_keys c q c.max_iterations.toNat 0 [] none (by simp) r hr

/-- Witness for C7 at the round-0 log of a concrete run. -/
theorem round_executor_covers_witness :
    rOneDis0.calls.map Prod.fst = cOneDis.models.map Prod.fst ∧
    (∀ n, n ∈ rOneDis0.result.map Prod.fst ↔ n ∈ cOneDis.models.map Prod.fst) :=
  round_executor_covers cOneDis "Q" rOneDis0 (by decide)

/-- Claim C3: in every run (non-empty agent set, distinct identifiers), the
candidate answer `merged_response` is `none` at the end of round 0 and is
populated exactly from round 1 onwards — it is assigned once, during the
round with iteration index 1, to the response text of the first-registered
agent of that round (the head entry of round 1's result), and every later
round carries that same value, never overwritten. -/
theorem candidate_single_assignment (c : LLMConsensus) (q : String)
    (hne : c.models ≠ []) (hnd : (c.models.map Prod.fst).Nodup) :
    ∀ j r, (get_consensus_run c q).rounds.get? j = some r →
      ((r.merged = none ↔ j = 0) ∧
       (1 ≤ j → ∃ r1, (get_consensus_run c q).rounds.get? 1 = some r1 ∧
          ∃ e, r1.result.head? = some e ∧ r.merged = some e.2.response)) := by
  intro j r hget
  cases hfuel : c.max_iterations.toNat with
  | zero =>
      rw [get_consensus_run, hfuel] at hget
      simp [consensusLoop] at hget
  | succ f =>
      have hzero := run_agents_zero c q c.models [] none hnd (by simp)
      have hm0 : (run_agents c q 0 c.models [] none).2.1 = none := by rw [hzero]
      have hnames0 : (run_agents c q 0 c.models [] none).1.map Prod.fst =
          c.models.map Prod.fst := by
        rw [hzero]
        simp
      rw [get_consensus_run, hfuel] at hget ⊢
      by_cases h0 : check_consensus (run_agents c q 0 c.models [] none).1
      · have hrounds : (consensusLoop c q (f + 1) 0 [] none).rounds =
            [⟨(run_agents c q 0 c.models [] none).2.2, (run_agents c q 0 c.models [] none).1,
              (run_agents c q 0 c.models [] none).2.1⟩] := by
          rw [consensusLoop_succ, if_pos h0]
        rw [hrounds] at hget ⊢
        cases j with
        | zero =>
            simp only [List.get?_cons_zero, Option.some.injEq] at hget
            subst hget
            constructor
            · simp [hm0]
            · intro hj
              omega
        | succ j => simp at hget
      · have hrounds : (consensusLoop c q (f + 1) 0 [] none).rounds =
            ⟨(run_agents c q 0 c.models [] none).2.2, (run_agents c q 0 c.models [] none).1,
              (run_agents c q 0 c.models [] none).2.1⟩ ::
            (consensusLoop c q f 1 (run_agents c q 0 c.models [] none).1
              (run_agents c q 0 c.models [] none).2.1).rounds := by
          rw [consensusLoop_succ, if_neg h0]
        rw [hrounds] at hget ⊢
        cases j with
        | zero =>
            simp only [List.get?_cons_zero, Option.some.injEq] at hget
            subst hget
            constructor
            · simp [hm0]
            · intro hj
              omega
        | succ j =>
            simp only [List.get?_cons_succ] at hget
            cases f with
            | zero => simp [consensusLoop] at hget
            | succ f2 =>
                obtain ⟨e, dT, hres1, hm1⟩ :=
                  run_agents_one_merged c q (run_agents c q 0 c.models [] none).1
                    (run_agents c q 0 c.models [] none).2.1 hne hnames0 hnd
                by_cases h1 : check_consensus (run_agents c q 1 c.models
                    (run_agents c q 0 c.models [] none).1
                    (run_agents c q 0 c.models [] none).2.1).1
                · have hroundsI : (consensusLoop c q (f2 + 1) 1
                      (run_agents c q 0 c.models [] none).1
                      (run_agents c q 0 c.models [] none).2.1).rounds =
                      [⟨(run_agents c q 1 c.models (run_agents c q 0 c.models [] none).1
                          (run_agents c q 0 c.models [] none).2.1).2.2,
                        (run_agents c q 1 c.models (run_agents c q 0 c.models [] none).1
                          (run_agents c q 0 c.models [] none).2.1).1,
                        (run_agents c q 1 c.models (run_agents c q 0 c.models [] none).1
                          (run_agents c q 0 c.models [] none).2.1).2.1⟩] := by
                    rw [consensusLoop_succ, if_pos h1]
                  rw [hroundsI] at hget ⊢
                  cases j with
                  | zero =>
                      simp only [List.get?_cons_zero, Option.some.injEq] at hget
                      subst hget
                      constructor
                      · rw [hm1]
                        simp
                      · intro _
                        refine ⟨_, rfl, e, ?_, ?_⟩
                        · rw [hres1]
                          rfl
                        · rw [hm1]
                  | succ j2 => simp at hget
                · have hroundsI : (consensusLoop c q (f2 + 1) 1
                      (run_agents c q 0 c.models [] none).1
                      (run_agents c q 0 c.models [] none).2.1).rounds =
                      ⟨(run_agents c q 1 c.models (run_agents c q 0 c.models [] none).1
                          (run_agents c q 0 c.models [] none).2.1).2.2,
                        (run_agents c q 1 c.models (run_agents c q 0 c.models [] none).1
                          (run_agents c q 0 c.models [] none).2.1).1,
                        (run_agents c q 1 c.models (run_agents c q 0 c.models [] none).1
                          (run_agents c q 0 c.models [] none).2.1).2.1⟩ ::
                      (consensusLoop c q f2 2
                        (run_agents c q 1 c.models (run_agents c q 0 c.models [] none).1
                          (run_agents c q 0 c.models [] none).2.1).1
                        (run_agents c q 1 c.models (run_agents c q 0 c.models [] none).1
                          (run_agents c q 0 c.models [] none).2.1).2.1).rounds := by
                    rw [consensusLoop_succ, if_neg h1]
                  rw [hroundsI] at hget ⊢
                  cases j with
                  | zero =>
                      simp only [List.get?_cons_zero, Option.some.injEq] at hget
                      subst hget
                      constructor
                      · rw [hm1]
                        simp
                      · intro _
                        refine ⟨_, rfl, e, ?_, ?_⟩
                        · rw [hres1]
                          rfl
                        · rw [hm1]
                  | succ j2 =>
                      simp only [List.get?_cons_succ] at hget
                      have hmem : r ∈ (consensusLoop c q f2 2
                          (run_agents c q 1 c.models (run_agents c q 0 c.models [] none).1
                            (run_agents c q 0 c.models [] none).2.1).1
                          (run_agents c q 1 c.models (run_agents c q 0 c.models [] none).1
                            (run_agents c q 0 c.models [] none).2.1).2.1).rounds :=
                        List.get?_mem hget
                      have hmr := consensusLoop_merged_const c q f2 2 _ _ (by omega) r hmem
                      constructor
                      · rw [hmr, hm1]
                        simp
                      · intro _
                        refine ⟨_, rfl, e, ?_, ?_⟩
                        · rw [hres1]
                          rfl
                        · rw [hmr, hm1]

set_option maxRecDepth 4000 in
/-- Witness for C3: the round-1 log of a concrete run with one never-agreeing
agent. -/
theorem candidate_single_assignment_witness :
    ((rOneDis1.merged = none ↔ (1 : Nat) = 0) ∧
     (1 ≤ (1 : Nat) → ∃ r1, (get_consensus_run cOneDis "Q").rounds.get? 1 = some r1 ∧
        ∃ e, r1.result.head? = some e ∧ rOneDis1.merged = some e.2.response)) :=
  candidate_single_assignment cOneDis "Q" (by simp [cOneDis]) (by decide) 1 rOneDis1
    (by decide)

set_option maxRecDepth 8000 in
/-- Counterexample to claim C5 as stated: one never-agreeing agent whose
iteration-1 response text is the empty string.  The run exhausts all five
rounds and the candidate is captured (as the empty string) at iteration 1,
but Python truthiness (`merged_response if merged_response else ...`) treats
the empty candidate as absent, so `get_consensus` returns the agent's
final-round text `later`, not the captured candidate. -/
theorem exhaustion_empty_candidate_cex :
    (get_consensus_run cEmptyCand "Q").rounds.length = 5 ∧
    ((get_consensus_run cEmptyCand "Q").rounds.get? 1).map RoundLog.merged =
      some (some "") ∧
    get_consensus cEmptyCand "Q" = some "later" ∧
    some "later" ≠ some ("" : String) := by
  refine ⟨rfl, rfl, rfl, by decide⟩

/-- Claim C5 (amended): with a non-empty agent set (distinct identifiers),
`max_iterations = 5`, and at least one agent that always returns
`agrees = false`, `get_consensus` runs exactly five rounds; the candidate
answer is captured at iteration 1 from the first-registered agent of that
round and is still the recorded candidate of the final round (never absent
once iteration 1 has run); the returned answer is that candidate when it is
non-empty, and—because Python truthiness treats the empty string as
absent—the first-registered agent's final-round response text when the
captured candidate is the empty string. -/
theorem exhaustion_returns_candidate (c : LLMConsensus) (q : String)
    (hne : c.models ≠ []) (hnd : (c.models.map Prod.fst).Nodup)
    (hmax : c.max_iterations = 5)
    (hdis : ∃ mf ∈ c.models, ∀ p, ((mf.2 : String → ModelResponse) p).agrees = false) :
    (get_consensus_run c q).rounds.length = 5 ∧
    ∃ v w,
      ((get_consensus_run c q).rounds.get? 1).bind
        (fun r1 => r1.result.head?.map (fun e => e.2.response)) = some v ∧
      ((get_consensus_run c q).rounds.get? 4).map RoundLog.merged = some (some v) ∧
      ((get_consensus_run c q).rounds.get? 4).bind
        (fun r4 => r4.result.head?.map (fun e => e.2.response)) = some w ∧
      get_consensus c q = some (if v = "" then w else v) := by
  obtain ⟨mf, hmem, hdisf⟩ := hdis
  have htn : c.max_iterations.toNat = 5 := by rw [hmax]; rfl
  have hzero := run_agents_zero c q c.models [] none hnd (by simp)
  have hnames0 : (run_agents c q 0 c.models [] none).1.map Prod.fst =
      c.models.map Prod.fst := by
    rw [hzero]
    simp
  have hal0 : Aligned c.models (run_agents c q 0 c.models [] none).1 := by
    rw [hzero, List.nil_append]
    exact aligned_map_q c.models q
  have h0 : check_consensus (run_agents c q 0 c.models [] none).1 = false :=
    check_consensus_eq_false_of_disagree hal0 hmem hdisf
  obtain ⟨hnames1, hal1⟩ := run_agents_start_aligned c q 1
    (run_agents c q 0 c.models [] none).1 (run_agents c q 0 c.models [] none).2.1
    hnd (Or.inl hnames0)
  obtain ⟨e, dT, hres1, hm1⟩ := run_agents_one_merged c q
    (run_agents c q 0 c.models [] none).1 (run_agents c q 0 c.models [] none).2.1
    hne hnames0 hnd
  have h1 : check_consensus (run_agents c q 1 c.models
      (run_agents c q 0 c.models [] none).1
      (run_agents c q 0 c.models [] none).2.1).1 = false :=
    check_consensus_eq_false_of_disagree hal1 hmem hdisf
  have htop : consensusLoop c q 5 0 [] none =
      ⟨(consensusLoop c q 4 1 (run_agents c q 0 c.models [] none).1
          (run_agents c q 0 c.models [] none).2.1).answer,
       ⟨(run_agents c q 0 c.models [] none).2.2, (run_agents c q 0 c.models [] none).1,
         (run_agents c q 0 c.models [] none).2.1⟩ ::
       (consensusLoop c q 4 1 (run_agents c q 0 c.models [] none).1
          (run_agents c q 0 c.models [] none).2.1).rounds⟩ := by
    rw [show (5 : Nat) = 4 + 1 from rfl, consensusLoop_succ, if_neg (by rw [h0]; simp)]
  have htail : consensusLoop c q 4 1 (run_agents c q 0 c.models [] none).1
      (run_agents c q 0 c.models [] none).2.1 =
      ⟨(consensusLoop c q 3 2
          (run_agents c q 1 c.models (run_agents c q 0 c.models [] none).1
            (run_agents c q 0 c.models [] none).2.1).1
          (run_agents c q 1 c.models (run_agents c q 0 c.models [] none).1
            (run_agents c q 0 c.models [] none).2.1).2.1).answer,
       ⟨(run_agents c q 1 c.models (run_agents c q 0 c.models [] none).1
           (run_agents c q 0 c.models [] none).2.1).2.2,
        (run_agents c q 1 c.models (run_agents c q 0 c.models [] none).1
           (run_agents c q 0 c.models [] none).2.1).1,
        (run_agents c q 1 c.models (run_agents c q 0 c.models [] none).1
           (run_agents c q 0 c.models [] none).2.1).2.1⟩ ::
       (consensusLoop c q 3 2
          (run_agents c q 1 c.models (run_agents c q 0 c.models [] none).1
            (run_agents c q 0 c.models [] none).2.1).1
          (run_agents c q 1 c.models (run_agents c q 0 c.models [] none).1
            (run_agents c q 0 c.models [] none).2.1).2.1).rounds⟩ := by
    rw [show (4 : Nat) = 3 + 1 from rfl, consensusLoop_succ, if_neg (by rw [h1]; simp)]
  have hlen2 : (consensusLoop c q 3 2
      (run_agents c q 1 c.models (run_agents c q 0 c.models [] none).1
        (run_agents c q 0 c.models [] none).2.1).1
      (run_agents c q 1 c.models (run_agents c q 0 c.models [] none).1
        (run_agents c q 0 c.models [] none).2.1).2.1).rounds.length = 3 :=
    consensusLoop_len_disagree c q hmem hdisf 3 2 _ _ hnd (Or.inl hnames1)
  have h2lt : 2 < (consensusLoop c q 3 2
      (run_agents c q 1 c.models (run_agents c q 0 c.models [] none).1
        (run_agents c q 0 c.models [] none).2.1).1
      (run_agents c q 1 c.models (run_agents c q 0 c.models [] none).1
        (run_agents c q 0 c.models [] none).2.1).2.1).rounds.length := by
    rw [hlen2]
    omega
  have hget4 : (consensusLoop c q 3 2
      (run_agents c q 1 c.models (run_agents c q 0 c.models [] none).1
        (run_agents c q 0 c.models [] none).2.1).1
      (run_agents c q 1 c.models (run_agents c q 0 c.models [] none).1
        (run_agents c q 0 c.models [] none).2.1).2.1).rounds.get? 2 =
      some ((consensusLoop c q 3 2
        (run_agents c q 1 c.models (run_agents c q 0 c.models [] none).1
          (run_agents c q 0 c.models [] none).2.1).1
        (run_agents c q 1 c.models (run_agents c q 0 c.models [] none).1
          (run_agents c q 0 c.models [] none).2.1).2.1).rounds.get ⟨2, h2lt⟩) :=
    List.get?_eq_get h2lt
  have hr4mem := List.get_mem _ 2 h2lt
  have hr4m := consensusLoop_merged_const c q 3 2
    (run_agents c q 1 c.models (run_agents c q 0 c.models [] none).1
      (run_agents c q 0 c.models [] none).2.1).1
    (run_agents c q 1 c.models (run_agents c q 0 c.models [] none).1
      (run_agents c q 0 c.models [] none).2.1).2.1 (by omega) _ hr4mem
  obtain ⟨hr4names, -⟩ := consensusLoop_entries_names c q 3 2
    (run_agents c q 1 c.models (run_agents c q 0 c.models [] none).1
      (run_agents c q 0 c.models [] none).2.1).1
    (run_agents c q 1 c.models (run_agents c q 0 c.models [] none).1
      (run_agents c q 0 c.models [] none).2.1).2.1 hnd (Or.inl hnames1) _ hr4mem
  have hr4ne : ((consensusLoop c q 3 2
      (run_agents c q 1 c.models (run_agents c q 0 c.models [] none).1
        (run_agents c q 0 c.models [] none).2.1).1
      (run_agents c q 1 c.models (run_agents c q 0 c.models [] none).1
        (run_agents c q 0 c.models [] none).2.1).2.1).rounds.get ⟨2, h2lt⟩).result ≠ [] := by
    intro hnil
    rw [hnil] at hr4names
    obtain ⟨mf0, rest, hm⟩ := List.exists_cons_of_ne_nil hne
    rw [hm] at hr4names
    simp at hr4names
  obtain ⟨e4, dT4, hres4⟩ := List.exists_cons_of_ne_nil hr4ne
  have hlenTop : (consensusLoop c q 5 0 [] none).rounds.length = 5 := by
    rw [htop, htail]
    simp [hlen2]
  have hget4top : (consensusLoop c q 5 0 [] none).rounds.get? 4 =
      some ((consensusLoop c q 3 2
        (run_agents c q 1 c.models (run_agents c q 0 c.models [] none).1
          (run_agents c q 0 c.models [] none).2.1).1
        (run_agents c q 1 c.models (run_agents c q 0 c.models [] none).1
          (run_agents c q 0 c.models [] none).2.1).2.1).rounds.get ⟨2, h2lt⟩) := by
    rw [htop, htail]
    exact hget4
  have hanswer := consensusLoop_answer_of_last c q 5 0 [] none 4 _ hlenTop hget4top
  refine ⟨?_, e.2.response, e4.2.response, ?_, ?_, ?_, ?_⟩
  · rw [get_consensus_run, htn]
    exact hlenTop
  · rw [get_consensus_run, htn, htop, htail, hres1]
    rfl
  · rw [get_consensus_run, htn, hget4top, Option.map_some', hr4m, hm1]
  · rw [get_consensus_run, htn, hget4top]
    simp only [Option.some_bind]
    rw [hres4]
    rfl
  · rw [get_consensus, get_consensus_run, htn, hanswer, hr4m, hres4, hm1]
    by_cases hv : e.2.response = "" <;> simp [fallbackAnswer, hv]

set_option maxRecDepth 4000 in
/-- Witness for C5 (amended) at a run with one constantly disagreeing agent:
the candidate `x` is captured at iteration 1, survives to the final round,
and is returned. -/
theorem exhaustion_returns_candidate_witness :
    (get_consensus_run cOneDis "Q").rounds.length = 5 ∧
    ∃ v w,
      ((get_consensus_run cOneDis "Q").rounds.get? 1).bind
        (fun r1 => r1.result.head?.map (fun e => e.2.response)) = some v ∧
      ((get_consensus_run cOneDis "Q").rounds.get? 4).map RoundLog.merged = some (some v) ∧
      ((get_consensus_run cOneDis "Q").rounds.get? 4).bind
        (fun r4 => r4.result.head?.map (fun e => e.2.response)) = some w ∧
      get_consensus cOneDis "Q" = some (if v = "" then w else v) :=
  exhaustion_returns_candidate cOneDis "Q" (by simp [cOneDis]) (by decide) (by decide)
    ⟨("A", fun _ => ModelResponse.mk false "x"), List.mem_singleton.mpr rfl,
      fun _ => rfl⟩

set_option maxRecDepth 8000 in
/-- Counterexample to claim C2 as stated: with two never-agreeing agents,
round 0 ends with `A ↦ a, B ↦ c`, but in round 1 the second agent `B`
receives the merge prompt built from `A ↦ b, B ↦ c` — it already contains
`A`'s round-1 response `b`, produced earlier in the same round, not `A`'s
previous-round response `a`.  The two merge prompts differ, so the prompt is
not built solely from the previous round's result. -/
theorem merge_prompt_mid_round_cex :
    ((get_consensus_run cTwoDis "Q").rounds.get? 0).map RoundLog.result =
      some [("A", ModelResponse.mk false "a"), ("B", ModelResponse.mk false "c")] ∧
    ((get_consensus_run cTwoDis "Q").rounds.get? 1).bind (fun r => r.calls.get? 1) =
      some ("B", create_merge_prompt "Q"
        [("A", ModelResponse.mk false "b"), ("B", ModelResponse.mk false "c")]) ∧
    create_merge_prompt "Q"
        [("A", ModelResponse.mk false "b"), ("B", ModelResponse.mk false "c")] ≠
      create_merge_prompt "Q"
        [("A", ModelResponse.mk false "a"), ("B", ModelResponse.mk false "c")] := by
  refine ⟨rfl, rfl, by decide⟩

/-- Claim C2 (amended): in every round with iteration index ≥ 1 (distinct
agent identifiers), the prompt handed to the agent at registration position
`k` is built from the `responses` dict as it stands when that agent is asked:
the entries of agents before position `k` already hold their current-round
responses, while the entries from position `k` on still hold the previous
round's responses.  Only the first-registered agent's prompt is built purely
from the previous round's result. -/
theorem round_prompt_mid_round (c : LLMConsensus) (q : String)
    (hnd : (c.models.map Prod.fst).Nodup)
    (i k : Nat) (rp rc : RoundLog) (mf : String × (String → ModelResponse))
    (call : String × String)
    (hp : (get_consensus_run c q).rounds.get? i = some rp)
    (hc : (get_consensus_run c q).rounds.get? (i + 1) = some rc)
    (hmf : c.models.get? k = some mf)
    (hcall : rc.calls.get? k = some call) :
    call = (mf.1, roundPrompt q (i + 1) (rc.result.take k ++ rp.result.drop k)) := by
  have hchain := consensusLoop_chain c q c.max_iterations.toNat 0 [] none i rp rc hp hc
  have hz : (0 : Nat) + i + 1 = i + 1 := by omega
  rw [hz] at hchain
  have hrpmem : rp ∈ (get_consensus_run c q).rounds := List.get?_mem hp
  obtain ⟨hrpnames, -⟩ := consensusLoop_entries_names c q c.max_iterations.toNat 0 [] none
    hnd (Or.inr ⟨rfl, rfl⟩) rp hrpmem
  obtain ⟨pend2, h1, h2, h3, h4⟩ := run_agents_mixed c q (i + 1) c.models [] rp.result
    rp.merged hrpnames (by rw [List.nil_append, hrpnames]; exact hnd)
  simp only [List.nil_append] at h1 h4
  rw [hchain] at h1 h4
  have hrc : rc.result = pend2 := h1
  have h4k : rc.calls.get? k = (c.models.get? k).map
      (fun mf2 => (mf2.1, roundPrompt q (i + 1) (pend2.take k ++ rp.result.drop k))) := h4 k
  rw [hmf, hcall] at h4k
  have hcalleq := Option.some.inj h4k
  rw [hcalleq, hrc]

set_option maxRecDepth 4000 in
/-- Witness for C2 (amended) at a concrete run: the single agent's round-1
prompt is the merge prompt built from the round-0 result (for position 0 the
mixed dict is exactly the previous round's result). -/
theorem round_prompt_mid_round_witness :
    ("A", create_merge_prompt "Q" [("A", ModelResponse.mk false "x")]) =
      ((("A", fun _ => ModelResponse.mk false "x") :
          String × (String → ModelResponse)).1,
        roundPrompt "Q" (0 + 1) (rOneDis1.result.take 0 ++ rOneDis0.result.drop 0)) :=
  round_prompt_mid_round cOneDis "Q" (by decide) 0 0 rOneDis0 rOneDis1
    ("A", fun _ => ModelResponse.mk false "x")
    ("A", create_merge_prompt "Q" [("A", ModelResponse.mk false "x")])
    (by decide) (by decide) rfl rfl
